import Mathlib

/-!
Verification development for the `scadr` multiview renderer
(ray-triangle intersection engine, orthographic camera, Phong-style
lighting with fog, outline/silhouette detection, STL mesh decoding,
multiview compositing).

The TypeScript sources are embedded shallowly:

* JavaScript `number` arithmetic on geometry is modelled by a linear
  ordered field.  Definitions that need neither square roots nor
  exponentials are stated polymorphically over such a field `K` (they
  compute at `K = ℚ`); the ray tracer itself, which calls `Math.sqrt`
  and `Math.exp`, is stated over `ℝ` with `Real.sqrt` / `Real.exp`.
* Mutable loop variables become accumulators of structural recursions;
  the JavaScript `Infinity` sentinel used by `castRay` becomes an
  `Option` accumulator.
* The STL text decoder works on the character list of the input and
  models `parseFloat`'s NaN results explicitly.
-/

namespace Scadr

/-! ## Vector math (src/views/orthographicCamera.ts)

`Vector3` and the arithmetic helpers are polymorphic in the scalar
field; the TypeScript source uses IEEE doubles for all of them. -/

structure Vector3 (K : Type) where
  x : K
  y : K
  z : K
deriving DecidableEq, Repr

structure Ray (K : Type) where
  origin : Vector3 K
  direction : Vector3 K
deriving DecidableEq, Repr

variable {K : Type} [LinearOrderedField K]

def add (a b : Vector3 K) : Vector3 K :=
  ⟨a.x + b.x, a.y + b.y, a.z + b.z⟩

def subtract (a b : Vector3 K) : Vector3 K :=
  ⟨a.x - b.x, a.y - b.y, a.z - b.z⟩

def multiply (v : Vector3 K) (scalar : K) : Vector3 K :=
  ⟨v.x * scalar, v.y * scalar, v.z * scalar⟩

def dot (a b : Vector3 K) : K :=
  a.x * b.x + a.y * b.y + a.z * b.z

def cross (a b : Vector3 K) : Vector3 K :=
  ⟨a.y * b.z - a.z * b.y,
   a.z * b.x - a.x * b.z,
   a.x * b.y - a.y * b.x⟩

/-- `multiplyVectors` of src/views/raytracer.ts: componentwise product. -/
def multiplyVectors (a b : Vector3 K) : Vector3 K :=
  ⟨a.x * b.x, a.y * b.y, a.z * b.z⟩

/-- `clampColor` of src/views/raytracer.ts: clamp each channel to [0,1]. -/
def clampColor (color : Vector3 K) : Vector3 K :=
  ⟨min 1 (max 0 color.x), min 1 (max 0 color.y), min 1 (max 0 color.z)⟩

noncomputable section RealGeometry

/-- `length` of src/views/orthographicCamera.ts (`Math.sqrt` forces `ℝ`). -/
def vecLength (v : Vector3 ℝ) : ℝ :=
  Real.sqrt (v.x * v.x + v.y * v.y + v.z * v.z)

/-- `normalize` of src/views/orthographicCamera.ts: the zero vector is
mapped to the zero vector rather than failing. -/
def normalize (v : Vector3 ℝ) : Vector3 ℝ :=
  if vecLength v = 0 then ⟨0, 0, 0⟩ else multiply v (1 / vecLength v)

/-! ## Triangles (src/stl.ts)

A `Triangle` stores one face normal and three vertices.  The source
keeps them as number triples (`[number, number, number]`); here each
triple is a `Vector3`. -/

structure Triangle (K : Type) where
  normal : Vector3 K
  vertices : Vector3 K × Vector3 K × Vector3 K
deriving DecidableEq, Repr

/-! ## Silhouette detection (src/views/outlineView.ts)

`detectSilhouette` needs only comparisons and dot products, so it stays
polymorphic in the scalar field (and computes at `K = ℚ`). -/

/-- `createEdgeKey`: the source renders the lexicographically sorted
endpoint pair as the string `"x1,y1,z1-x2,y2,z2"`; JavaScript formats
distinct numbers as distinct strings, so the key is modelled as the
sorted pair itself. -/
def createEdgeKey (v1 v2 : Vector3 K) : Vector3 K × Vector3 K :=
  if v1.x < v2.x ∨ (v1.x = v2.x ∧ v1.y < v2.y) ∨
     (v1.x = v2.x ∧ v1.y = v2.y ∧ v1.z < v2.z)
  then (v1, v2) else (v2, v1)

/-- The three edge keys one triangle contributes, in source order
(vertex pairs (0,1), (1,2), (2,0)). -/
def triangleEdges (t : Triangle K) : List (Vector3 K × Vector3 K) :=
  [createEdgeKey t.vertices.1 t.vertices.2.1,
   createEdgeKey t.vertices.2.1 t.vertices.2.2,
   createEdgeKey t.vertices.2.2 t.vertices.1]

/-- One JavaScript-`Map` update of the edge-adjacency map:
`edges.get(key).push(i)`, with a fresh key appended at the end
(insertion order is preserved). -/
def mapPush {α : Type} [DecidableEq α] :
    List (α × List ℕ) → α → ℕ → List (α × List ℕ)
  | [], key, i => [(key, [i])]
  | (k, l) :: rest, key, i =>
    if k = key then (k, l ++ [i]) :: rest
    else (k, l) :: mapPush rest key i

/-- All map pushes `(edge key, triangle index)` performed by the
`triangles.forEach` loop of `detectSilhouette`, in execution order. -/
def edgeEvents (triangles : List (Triangle K)) : List ((Vector3 K × Vector3 K) × ℕ) :=
  triangles.enum.flatMap fun p => (triangleEdges p.2).map fun k => (k, p.1)

/-- Replay a list of pushes into a map. -/
def processEvents {α : Type} [DecidableEq α] :
    List (α × List ℕ) → List (α × ℕ) → List (α × List ℕ)
  | m, [] => m
  | m, (k, i) :: evs => processEvents (mapPush m k i) evs

/-- Assoc-list lookup: what `edges.get(key)` observes. -/
def mapFind {α : Type} [DecidableEq α] : List (α × List ℕ) → α → Option (List ℕ)
  | [], _ => none
  | (k, l) :: rest, key => if k = key then some l else mapFind rest key

/-- The indices a given key accumulates from a list of pushes, in push
order. -/
def occList {α : Type} [DecidableEq α] (evs : List (α × ℕ)) (key : α) : List ℕ :=
  evs.filterMap fun e => if e.1 = key then some e.2 else none

/-- The edge-adjacency map `edges` built by `detectSilhouette`. -/
def buildEdgeMap (triangles : List (Triangle K)) :
    List ((Vector3 K × Vector3 K) × List ℕ) :=
  processEvents [] (edgeEvents triangles)

/-- The triangle-index list an edge key accumulates, in scan order:
what `edges.get(key)` holds after the build loop (one entry per
occurrence, so a triangle with a repeated edge appears twice). -/
def edgeOccurrences (triangles : List (Triangle K))
    (key : Vector3 K × Vector3 K) : List ℕ :=
  occList (edgeEvents triangles) key

/-- `dot(normal, viewDirection) < 0`: the facing test of
`detectSilhouette`, a JavaScript boolean. -/
def facingBool (t : Triangle K) (viewDirection : Vector3 K) : Bool :=
  decide (dot t.normal viewDirection < 0)

def defaultTriangle : Triangle K :=
  ⟨⟨0, 0, 0⟩, (⟨0, 0, 0⟩, ⟨0, 0, 0⟩, ⟨0, 0, 0⟩)⟩

/-- The `edges.forEach` loop of `detectSilhouette`: each edge whose
index list has exactly two entries flags both triangles when exactly
one of them faces the viewer.  (`triangles[i]` is modelled with a
default value; every index stored in the map is in range.) -/
def markSilhouette (triangles : List (Triangle K)) (viewDirection : Vector3 K) :
    List ((Vector3 K × Vector3 K) × List ℕ) → List Bool → List Bool
  | [], isSilhouette => isSilhouette
  | (_, triangleIndices) :: rest, isSilhouette =>
    match triangleIndices with
    | [tri1Index, tri2Index] =>
      let tri1 := triangles.getD tri1Index defaultTriangle
      let tri2 := triangles.getD tri2Index defaultTriangle
      if facingBool tri1 viewDirection ≠ facingBool tri2 viewDirection then
        markSilhouette triangles viewDirection rest
          ((isSilhouette.set tri1Index true).set tri2Index true)
      else
        markSilhouette triangles viewDirection rest isSilhouette
    | _ => markSilhouette triangles viewDirection rest isSilhouette

/-- `detectSilhouette` of src/views/outlineView.ts. -/
def detectSilhouette (triangles : List (Triangle K)) (viewDirection : Vector3 K) :
    List Bool :=
  markSilhouette triangles viewDirection (buildEdgeMap triangles)
    (List.replicate triangles.length false)

/-! ## STL text decoder (src/stl.ts)

The decoder works on the character list of the file contents.  A
JavaScript number as the decoder produces it is a `JSNum`: `parseFloat`
yields NaN on garbage and ±Infinity on `"Infinity"` literals; finite
values are exact rationals. -/

inductive JSNum where
  | nan : JSNum
  | inf : JSNum
  | negInf : JSNum
  | val : ℚ → JSNum
deriving DecidableEq, Repr

def digitsToNat (l : List Char) : ℕ :=
  l.foldl (fun n c => 10 * n + (c.toNat - '0'.toNat)) 0

/-- The exponent part of a float literal: after `e`/`E`, an optional
sign and digits; with no digits the exponent is ignored
(`parseFloat("1e") = 1`). -/
def readExp (cs : List Char) : ℤ :=
  let p : Bool × List Char :=
    match cs with
    | '-' :: r => (true, r)
    | '+' :: r => (false, r)
    | _ => (false, cs)
  let ds := p.2.takeWhile (·.isDigit)
  if ds.isEmpty then 0
  else if p.1 then -(digitsToNat ds : ℤ) else (digitsToNat ds : ℤ)

/-- JavaScript's `parseFloat`: skip leading whitespace, read an
optional sign, then the longest prefix that is a decimal literal (or
`Infinity`); no valid prefix gives NaN. -/
def parseFloatChars (chars : List Char) : JSNum :=
  let cs := chars.dropWhile (·.isWhitespace)
  let p : Bool × List Char :=
    match cs with
    | '-' :: r => (true, r)
    | '+' :: r => (false, r)
    | _ => (false, cs)
  let neg := p.1
  if "Infinity".toList.isPrefixOf p.2 then
    if neg then .negInf else .inf
  else
    let intDigits := p.2.takeWhile (·.isDigit)
    let cs1 := p.2.dropWhile (·.isDigit)
    let q : List Char × List Char :=
      match cs1 with
      | '.' :: r => (r.takeWhile (·.isDigit), r.dropWhile (·.isDigit))
      | _ => ([], cs1)
    let fracDigits := q.1
    if intDigits.isEmpty ∧ fracDigits.isEmpty then .nan
    else
      let mantissa : ℚ :=
        (digitsToNat intDigits : ℚ) + (digitsToNat fracDigits : ℚ) / 10 ^ fracDigits.length
      let e : ℤ :=
        match q.2 with
        | 'e' :: r => readExp r
        | 'E' :: r => readExp r
        | _ => 0
      .val ((if neg then -1 else 1) * mantissa * (10 : ℚ) ^ e)

/-- `content.split('\n')`: split into lines, keeping empty pieces. -/
def splitLines : List Char → List (List Char)
  | [] => [[]]
  | '\n' :: rest => [] :: splitLines rest
  | c :: rest =>
    match splitLines rest with
    | l :: ls => (c :: l) :: ls
    | [] => [[c]]

/-- `line.trim()`. -/
def trimChars (cs : List Char) : List Char :=
  ((cs.dropWhile (·.isWhitespace)).reverse.dropWhile (·.isWhitespace)).reverse

/-- The whitespace-separated tokens of a line (accumulating the
current token in reverse). -/
def wsTokensAux : List Char → List Char → List (List Char)
  | acc, [] => if acc.isEmpty then [] else [acc.reverse]
  | acc, c :: rest =>
    if c.isWhitespace then
      if acc.isEmpty then wsTokensAux [] rest
      else acc.reverse :: wsTokensAux [] rest
    else wsTokensAux (c :: acc) rest

/-- The whitespace-separated tokens of a line. -/
def wsTokens (cs : List Char) : List (List Char) :=
  wsTokensAux [] cs

/-- `line.split(/\s+/)` on an already-trimmed line: the token list;
JavaScript yields `[""]` for the empty string. -/
def splitWsJS (cs : List Char) : List (List Char) :=
  if cs.isEmpty then [[]] else wsTokens cs

/-- `parseFloat(parts[k])`; an out-of-range index is `undefined`, and
`parseFloat(undefined)` is NaN. -/
def tokArg (parts : List (List Char)) (k : ℕ) : JSNum :=
  match parts[k]? with
  | some t => parseFloatChars t
  | none => .nan

/-- The facet-normal parse of `parseASCIISTL`:
`line.split(/\s+/).slice(2)` then three `parseFloat`s. -/
def parseFacetNormalLine (line : List Char) : Vector3 JSNum :=
  let normalParts := (splitWsJS line).drop 2
  ⟨tokArg normalParts 0, tokArg normalParts 1, tokArg normalParts 2⟩

/-- The vertex parse of `parseASCIISTL`:
`vertexLine.split(/\s+/).slice(1)` then three `parseFloat`s. -/
def parseVertexLine (line : List Char) : Vector3 JSNum :=
  let vertexParts := (splitWsJS line).drop 1
  ⟨tokArg vertexParts 0, tokArg vertexParts 1, tokArg vertexParts 2⟩

def startsWithFacetNormal (line : List Char) : Bool :=
  "facet normal".toList.isPrefixOf line

structure STLModel where
  triangles : List (Triangle JSNum)
deriving DecidableEq, Repr

/-- The main `while` loop of `parseASCIISTL`.  A facet record consumes
seven lines: the facet-normal line, a skipped "outer loop" line, three
vertex lines, and skipped "endloop"/"endfacet" lines.  Reading a vertex
line past the end of the input is a JavaScript `TypeError`
(`undefined.split`), modelled as `none`; nothing else can fail — in
particular no literal is ever validated. -/
def parseRecords : List (List Char) → Option (List (Triangle JSNum))
  | [] => some []
  | line :: rest =>
    if startsWithFacetNormal line then
      match rest with
      | _outerLoop :: v1 :: v2 :: v3 :: rest4 =>
        let triangle : Triangle JSNum :=
          ⟨parseFacetNormalLine line,
           (parseVertexLine v1, parseVertexLine v2, parseVertexLine v3)⟩
        -- skip "endloop" and "endfacet" (never read), re-test `i < lines.length`
        let restResult : Option (List (Triangle JSNum)) :=
          match rest4 with
          | _endloop :: _endfacet :: tail => parseRecords tail
          | _ => some []
        match restResult with
        | some triangles => some (triangle :: triangles)
        | none => none
      | _ => none
    else parseRecords rest

/-- `parseASCIISTL` of src/stl.ts: split into trimmed lines, skip the
header up to the first `facet normal` line, then run the record loop. -/
def parseASCIISTL (content : List Char) : Option STLModel :=
  let lines := (splitLines content).map trimChars
  let body := lines.dropWhile (fun l => !startsWithFacetNormal l)
  match parseRecords body with
  | some triangles => some ⟨triangles⟩
  | none => none

/-! ## Multiview compositor (src/views/multiview.ts and its
higher-resolution variant) -/

structure MultiviewOptions where
  width : ℤ
  height : ℤ
  outputPath : String

/-- `generateMultiview` hardcodes the per-view resolution
(`const viewWidth = 400; const viewHeight = 300;`); the
`width`/`height` fields of its options are never read. -/
def viewWidth : ℕ := 400

def viewHeight : ℕ := 300

/-- The canvas created by `generateMultiview` is
`createCanvas(viewWidth * 2, viewHeight * 2)`: the dimensions of the
produced image, as a function of the options record. -/
def multiviewCanvasSize (_options : MultiviewOptions) : ℕ × ℕ :=
  (viewWidth * 2, viewHeight * 2)

/-- The higher-resolution variant of `generateMultiview` hardcodes
1600×1200 per view instead; its options are equally unread. -/
def multiviewCanvasSizeHiRes (_options : MultiviewOptions) : ℕ × ℕ :=
  (1600 * 2, 1200 * 2)

/-! ## Orthographic camera (src/views/orthographicCamera.ts) -/

structure OrthographicCamera where
  position : Vector3 ℝ
  target : Vector3 ℝ
  up : Vector3 ℝ
  left : ℝ
  right : ℝ
  bottom : ℝ
  top : ℝ
  near : ℝ
  far : ℝ

def createOrthographicCamera (position target up : Vector3 ℝ)
    (width height scale : ℝ) : OrthographicCamera :=
  let halfWidth := width / 2 * scale
  let halfHeight := height / 2 * scale
  { position := position, target := target, up := up,
    left := -halfWidth, right := halfWidth,
    bottom := -halfHeight, top := halfHeight,
    near := 0.1, far := 1000 }

/-- The `forward` basis vector computed inside `getRayForPixel`. -/
def cameraForward (camera : OrthographicCamera) : Vector3 ℝ :=
  normalize (subtract camera.target camera.position)

/-- The `right` basis vector computed inside `getRayForPixel`. -/
def cameraRight (camera : OrthographicCamera) : Vector3 ℝ :=
  normalize (cross (cameraForward camera) camera.up)

/-- The camera-space `up` basis vector computed inside `getRayForPixel`. -/
def cameraUp (camera : OrthographicCamera) : Vector3 ℝ :=
  cross (cameraRight camera) (cameraForward camera)

/-- `getRayForPixel` of src/views/orthographicCamera.ts. -/
def getRayForPixel (camera : OrthographicCamera)
    (pixelX pixelY imageWidth imageHeight : ℝ) : Ray ℝ :=
  let u := pixelX / imageWidth
  let v := pixelY / imageHeight
  let worldX := camera.left + u * (camera.right - camera.left)
  let worldY := camera.bottom + v * (camera.top - camera.bottom)
  let forward := cameraForward camera
  let right := cameraRight camera
  let up := cameraUp camera
  { origin :=
      ⟨camera.position.x + worldX * right.x + worldY * up.x,
       camera.position.y + worldX * right.y + worldY * up.y,
       camera.position.z + worldX * right.z + worldY * up.z⟩,
    direction := forward }

/-! ## Intersection & lighting (src/views/raytracer.ts) -/

structure Material where
  color : Vector3 ℝ
  ambient : ℝ
  diffuse : ℝ

structure RayHit where
  point : Vector3 ℝ
  normal : Vector3 ℝ
  distance : ℝ
  material : Material

structure Scene where
  triangles : List (Triangle ℝ)
  lightPosition : Vector3 ℝ
  lightColor : Vector3 ℝ
  ambientLight : Vector3 ℝ
  backgroundColor : Vector3 ℝ
  fogColor : Vector3 ℝ
  fogDensity : ℝ

def createScene (triangles : List (Triangle ℝ)) : Scene :=
  { triangles := triangles,
    lightPosition := ⟨10, 10, 10⟩,
    lightColor := ⟨1, 1, 1⟩,
    ambientLight := ⟨0.3, 0.3, 0.3⟩,
    backgroundColor := ⟨1, 1, 0.8⟩,
    fogColor := ⟨0.9, 0.9, 0.7⟩,
    fogDensity := 0.005 }

/-- The Möller–Trumbore part of `intersectRayTriangle` (everything after
the bounding-box fast rejection; both of that check's non-rejecting
paths fall through to exactly this code). -/
def intersectRayTriangleMT (ray : Ray ℝ) (triangle : Triangle ℝ) : Option RayHit :=
  let v0 := triangle.vertices.1
  let v1 := triangle.vertices.2.1
  let v2 := triangle.vertices.2.2
  let edge1 := subtract v1 v0
  let edge2 := subtract v2 v0
  let h := cross ray.direction edge2
  let a := dot edge1 h
  if -0.00001 < a ∧ a < 0.00001 then none   -- ray is parallel to triangle
  else
    let f := 1 / a
    let s := subtract ray.origin v0
    let u := f * dot s h
    if u < 0 ∨ u > 1 then none
    else
      let q := cross s edge1
      let v := f * dot ray.direction q
      if v < 0 ∨ u + v > 1 then none
      else
        let t := f * dot edge2 q
        if t > 0.00001 then
          some { point := add ray.origin (multiply ray.direction t),
                 normal := normalize triangle.normal,
                 distance := t,
                 -- pleasant green material for objects
                 material := { color := ⟨0.3, 0.8, 0.3⟩, ambient := 0.3, diffuse := 0.7 } }
        else none

/-- The Möller–Trumbore determinant `a` computed by
`intersectRayTriangle`; the code rejects the ray as parallel when its
magnitude is below 0.00001. -/
def mtDet (ray : Ray ℝ) (triangle : Triangle ℝ) : ℝ :=
  dot (subtract triangle.vertices.2.1 triangle.vertices.1)
    (cross ray.direction (subtract triangle.vertices.2.2 triangle.vertices.1))

/-- `intersectRayTriangle` of src/views/raytracer.ts: the quick
bounding-box early-rejection check in front of the Möller–Trumbore
test. -/
def intersectRayTriangle (ray : Ray ℝ) (triangle : Triangle ℝ) : Option RayHit :=
  let v0 := triangle.vertices.1
  let v1 := triangle.vertices.2.1
  let v2 := triangle.vertices.2.2
  let minX := min v0.x (min v1.x v2.x)
  let maxX := max v0.x (max v1.x v2.x)
  let minY := min v0.y (min v1.y v2.y)
  let maxY := max v0.y (max v1.y v2.y)
  let minZ := min v0.z (min v1.z v2.z)
  let maxZ := max v0.z (max v1.z v2.z)
  -- skip if ray origin is far from triangle bounds
  if ray.origin.x < minX - 1 ∨ ray.origin.x > maxX + 1 ∨
     ray.origin.y < minY - 1 ∨ ray.origin.y > maxY + 1 ∨
     ray.origin.z < minZ - 1 ∨ ray.origin.z > maxZ + 1 then
    -- only reject if the ray direction would not help
    if (ray.direction.x > 0 ∧ ray.origin.x > maxX) ∨
       (ray.direction.x < 0 ∧ ray.origin.x < minX) ∨
       (ray.direction.y > 0 ∧ ray.origin.y > maxY) ∨
       (ray.direction.y < 0 ∧ ray.origin.y < minY) ∨
       (ray.direction.z > 0 ∧ ray.origin.z > maxZ) ∨
       (ray.direction.z < 0 ∧ ray.origin.z < minZ) then
      none
    else intersectRayTriangleMT ray triangle
  else intersectRayTriangleMT ray triangle

/-- The scanning loop of `castRay`, parametrised by the per-triangle
intersection routine.  The mutable pair (closestHit, closestDistance)
of the source is collapsed into the optional accumulator alone, since
`closestDistance` is exactly the distance of `closestHit` and the
`Infinity` sentinel corresponds to `none` (every comparison against it
succeeds). -/
def castRayAux (intersect : Ray ℝ → Triangle ℝ → Option RayHit) (ray : Ray ℝ) :
    List (Triangle ℝ) → Option RayHit → Option RayHit
  | [], closestHit => closestHit
  | triangle :: rest, closestHit =>
    match intersect ray triangle, closestHit with
    | none, _ => castRayAux intersect ray rest closestHit
    | some hit, none =>
      -- hit.distance < Infinity always holds
      if hit.distance < 0.001 then some hit   -- early termination
      else castRayAux intersect ray rest (some hit)
    | some hit, some closest =>
      if hit.distance < closest.distance then
        if hit.distance < 0.001 then some hit   -- early termination
        else castRayAux intersect ray rest (some hit)
      else castRayAux intersect ray rest (some closest)

/-- `castRay` of src/views/raytracer.ts: linear scan over the scene's
triangles for the closest intersection. -/
def castRay (ray : Ray ℝ) (scene : Scene) : Option RayHit :=
  castRayAux intersectRayTriangle ray scene.triangles none

/-- The same scan with the plain Möller–Trumbore test, without the
bounding-box fast rejection: the reference the fast path is compared
against. -/
def castRayNoBBox (ray : Ray ℝ) (scene : Scene) : Option RayHit :=
  castRayAux intersectRayTriangleMT ray scene.triangles none

/-- The prefix of the triangle list the `castRay` loop actually scans:
the loop breaks immediately after the first accepted hit with
distance < 0.001, so the scan covers the list up to and including the
first triangle whose intersection is that close (or the whole list). -/
def scannedTriangles (intersect : Ray ℝ → Triangle ℝ → Option RayHit) (ray : Ray ℝ) :
    List (Triangle ℝ) → List (Triangle ℝ)
  | [] => []
  | triangle :: rest =>
    match intersect ray triangle with
    | some hit =>
      if hit.distance < 0.001 then [triangle]
      else triangle :: scannedTriangles intersect ray rest
    | none => triangle :: scannedTriangles intersect ray rest

/-- The ambient+diffuse colour combined by `calculateLighting` before
fog is applied. -/
def preFogColor (hit : RayHit) (scene : Scene) : Vector3 ℝ :=
  let ambient := multiplyVectors hit.material.color scene.ambientLight
  let lightDirection := normalize (subtract scene.lightPosition hit.point)
  let diffuseIntensity := max 0 (dot hit.normal lightDirection) * hit.material.diffuse
  let diffuse := multiply (multiplyVectors hit.material.color scene.lightColor) diffuseIntensity
  add ambient diffuse

/-- The blend weight toward `fogColor` used by `calculateLighting`:
`1 - fogFactor` where `fogFactor = exp(-fogDensity * distance)`. -/
def fogWeight (fogDensity distance : ℝ) : ℝ :=
  1 - Real.exp (-fogDensity * distance)

/-- `calculateLighting` of src/views/raytracer.ts: ambient + diffuse,
then atmospheric fog, then clamping. -/
def calculateLighting (hit : RayHit) (scene : Scene) (_rayDirection : Vector3 ℝ) : Vector3 ℝ :=
  let finalColor := preFogColor hit scene
  let fogFactor := Real.exp (-scene.fogDensity * hit.distance)
  clampColor (add (multiply finalColor fogFactor) (multiply scene.fogColor (1 - fogFactor)))

/-! ## Outline detection (src/views/outlineView.ts) -/

structure OutlineResult where
  isOutline : Bool
  depth : WithTop ℝ   -- `Infinity` on a missed centre ray is `⊤`

/-- The 4-connected neighbour samples of `detectOutline`, in source
order: right, left, down, up. -/
def neighborOffsets (pixelX pixelY : ℝ) : List (ℝ × ℝ) :=
  [(pixelX + 1, pixelY), (pixelX - 1, pixelY),
   (pixelX, pixelY + 1), (pixelX, pixelY - 1)]

/-- The neighbour loop of `detectOutline`: first trigger (background
miss, depth discontinuity, or normal discontinuity) returns `true`;
out-of-bounds neighbours are skipped. -/
def outlineScan (hit : RayHit) (scene : Scene) (imageWidth imageHeight : ℝ)
    (getRay : ℝ → ℝ → Ray ℝ) : List (ℝ × ℝ) → Bool
  | [] => false
  | neighbor :: rest =>
    if neighbor.1 < 0 ∨ neighbor.1 ≥ imageWidth ∨
       neighbor.2 < 0 ∨ neighbor.2 ≥ imageHeight then
      outlineScan hit scene imageWidth imageHeight getRay rest
    else
      match castRay (getRay neighbor.1 neighbor.2) scene with
      | none => true                                   -- object/background edge
      | some neighborHit =>
        if |hit.distance - neighborHit.distance| > 0.1 then true   -- depth discontinuity
        else if dot hit.normal neighborHit.normal < 0.8 then true  -- normal discontinuity
        else outlineScan hit scene imageWidth imageHeight getRay rest

/-- `detectOutline` of src/views/outlineView.ts. -/
def detectOutline (ray : Ray ℝ) (scene : Scene) (pixelX pixelY imageWidth imageHeight : ℝ)
    (getRay : ℝ → ℝ → Ray ℝ) : OutlineResult :=
  match castRay ray scene with
  | none => { isOutline := false, depth := ⊤ }
  | some hit =>
    { isOutline := outlineScan hit scene imageWidth imageHeight getRay
        (neighborOffsets pixelX pixelY),
      depth := (hit.distance : WithTop ℝ) }

/-! ## Named intermediates of the Möller–Trumbore test

The quantities `edge1`, `edge2`, `s`, `h`, `q`, `u`, `v`, `t` computed
by `intersectRayTriangle`, exposed as definitions so theorems can speak
about them. -/

def mtEdge1 (triangle : Triangle ℝ) : Vector3 ℝ :=
  subtract triangle.vertices.2.1 triangle.vertices.1

def mtEdge2 (triangle : Triangle ℝ) : Vector3 ℝ :=
  subtract triangle.vertices.2.2 triangle.vertices.1

def mtS (ray : Ray ℝ) (triangle : Triangle ℝ) : Vector3 ℝ :=
  subtract ray.origin triangle.vertices.1

def mtH (ray : Ray ℝ) (triangle : Triangle ℝ) : Vector3 ℝ :=
  cross ray.direction (mtEdge2 triangle)

def mtQ (ray : Ray ℝ) (triangle : Triangle ℝ) : Vector3 ℝ :=
  cross (mtS ray triangle) (mtEdge1 triangle)

def mtU (ray : Ray ℝ) (triangle : Triangle ℝ) : ℝ :=
  1 / mtDet ray triangle * dot (mtS ray triangle) (mtH ray triangle)

def mtV (ray : Ray ℝ) (triangle : Triangle ℝ) : ℝ :=
  1 / mtDet ray triangle * dot ray.direction (mtQ ray triangle)

def mtT (ray : Ray ℝ) (triangle : Triangle ℝ) : ℝ :=
  1 / mtDet ray triangle * dot (mtEdge2 triangle) (mtQ ray triangle)

/-- The hit record the Möller–Trumbore test returns when it accepts. -/
def mtHit (ray : Ray ℝ) (triangle : Triangle ℝ) : RayHit :=
  { point := add ray.origin (multiply ray.direction (mtT ray triangle)),
    normal := normalize triangle.normal,
    distance := mtT ray triangle,
    material := { color := ⟨0.3, 0.8, 0.3⟩, ambient := 0.3, diffuse := 0.7 } }

/-! ## Concrete test inputs for witnesses -/

/-- A triangle in the plane z = 0 with unit normal (0,0,1). -/
def flatTriangle : Triangle ℝ :=
  ⟨⟨0, 0, 1⟩, (⟨0, 0, 0⟩, ⟨1, 0, 0⟩, ⟨0, 1, 0⟩)⟩

/-- A ray travelling inside the plane z = 5, parallel to `flatTriangle`. -/
def parallelRay : Ray ℝ :=
  ⟨⟨0, 0, 5⟩, ⟨1, 0, 0⟩⟩

/-- A large triangle in the plane z = 0. -/
def bigTriangle : Triangle ℝ :=
  ⟨⟨0, 0, 1⟩, (⟨-100, -100, 0⟩, ⟨100, -100, 0⟩, ⟨0, 100, 0⟩)⟩

/-- Vertical rays looking straight down from z = 5. -/
def downRay (x y : ℝ) : Ray ℝ :=
  ⟨⟨x, y, 5⟩, ⟨0, 0, -1⟩⟩

/-- The hit `castRay` produces for `downRay 5 5` against
`bigTriangle`. -/
def centerHit : RayHit :=
  { point := ⟨5, 5, 0⟩, normal := ⟨0, 0, 1⟩, distance := 5,
    material := { color := ⟨0.3, 0.8, 0.3⟩, ambient := 0.3, diffuse := 0.7 } }

/-- An orthographic camera whose up vector is collinear with its
forward vector (target − position). -/
def degenerateCamera : OrthographicCamera :=
  { position := ⟨0, 0, 0⟩, target := ⟨0, 0, 1⟩, up := ⟨0, 0, 2⟩,
    left := -1, right := 1, bottom := -1, top := 1, near := 0.1, far := 1000 }

end RealGeometry

/-- A text STL stream whose facet-normal line holds the malformed
literal `abc`. -/
def badSTLInput : List Char :=
  ("solid test\n" ++
   "facet normal abc 0 1\n" ++
   "outer loop\n" ++
   "vertex 0 0 0\n" ++
   "vertex 1 0 0\n" ++
   "vertex 0 1 0\n" ++
   "endloop\n" ++
   "endfacet\n" ++
   "endsolid test").toList

/-! # Helper lemmas -/

/-- The Möller–Trumbore body, written with the named intermediates
(definitionally equal to its original form). -/
theorem mt_unfold (ray : Ray ℝ) (triangle : Triangle ℝ) :
    intersectRayTriangleMT ray triangle =
      if -0.00001 < mtDet ray triangle ∧ mtDet ray triangle < 0.00001 then none
      else if mtU ray triangle < 0 ∨ mtU ray triangle > 1 then none
      else if mtV ray triangle < 0 ∨ mtU ray triangle + mtV ray triangle > 1 then none
      else if mtT ray triangle > 0.00001 then some (mtHit ray triangle)
      else none := rfl

/-- Inversion for an accepted Möller–Trumbore hit: the determinant is
not small, the barycentric coordinates are in range, the distance
exceeds the epsilon, and the hit is the canonical record. -/
theorem mt_some_elim {ray : Ray ℝ} {triangle : Triangle ℝ} {hit : RayHit}
    (h : intersectRayTriangleMT ray triangle = some hit) :
    (mtDet ray triangle ≤ -0.00001 ∨ 0.00001 ≤ mtDet ray triangle) ∧
    0 ≤ mtU ray triangle ∧ mtU ray triangle ≤ 1 ∧
    0 ≤ mtV ray triangle ∧ mtU ray triangle + mtV ray triangle ≤ 1 ∧
    0.00001 < mtT ray triangle ∧
    hit = mtHit ray triangle := by
  rw [mt_unfold] at h
  split_ifs at h with h₁ h₂ h₃ h₄
  rcases not_or.mp h₂ with ⟨hu₀, hu₁⟩
  rcases not_or.mp h₃ with ⟨hv₀, hv₁⟩
  refine ⟨?_, not_lt.mp hu₀, not_lt.mp hu₁, not_lt.mp hv₀, not_lt.mp hv₁, h₄,
    (Option.some.inj h).symm⟩
  rcases not_and_or.mp h₁ with hl | hr
  · exact Or.inl (not_lt.mp hl)
  · exact Or.inr (not_lt.mp hr)

/-- A near-parallel ray (small determinant) is rejected by the
Möller–Trumbore test. -/
theorem mt_none_of_parallel {ray : Ray ℝ} {triangle : Triangle ℝ}
    (h₁ : -0.00001 < mtDet ray triangle) (h₂ : mtDet ray triangle < 0.00001) :
    intersectRayTriangleMT ray triangle = none := by
  rw [mt_unfold, if_pos ⟨h₁, h₂⟩]

/-- The bounding-box wrapper can only return `none` or what the
Möller–Trumbore body returns. -/
theorem intersect_some_elim {ray : Ray ℝ} {triangle : Triangle ℝ} {hit : RayHit}
    (h : intersectRayTriangle ray triangle = some hit) :
    intersectRayTriangleMT ray triangle = some hit := by
  simp only [intersectRayTriangle] at h
  split_ifs at h
  · exact h
  · exact h

/-- Characterisation of the `castRay` scanning loop, for any
accumulator whose hit (if any) is at least 0.001 away (the invariant
the loop maintains, since a closer accepted hit breaks the scan): the
loop returns `none` iff it started empty and no scanned triangle hits,
and a returned hit is the accumulator or comes from a scanned
triangle, is no farther than the accumulator, and realises the minimum
distance over every scanned triangle's hit. -/
theorem castRayAux_spec (f : Ray ℝ → Triangle ℝ → Option RayHit) (ray : Ray ℝ)
    (ts : List (Triangle ℝ)) :
    ∀ (acc : Option RayHit), (∀ x, acc = some x → 0.001 ≤ x.distance) →
      (castRayAux f ray ts acc = none ↔
        acc = none ∧ ∀ t ∈ scannedTriangles f ray ts, f ray t = none) ∧
      ∀ h, castRayAux f ray ts acc = some h →
        (acc = some h ∨ ∃ t ∈ scannedTriangles f ray ts, f ray t = some h) ∧
        (∀ x, acc = some x → h.distance ≤ x.distance) ∧
        (∀ t ∈ scannedTriangles f ray ts, ∀ h', f ray t = some h' →
          h.distance ≤ h'.distance) := by
  induction ts with
  | nil =>
    intro acc hacc
    constructor
    · simp [castRayAux, scannedTriangles]
    · intro h hh
      simp only [castRayAux] at hh
      subst hh
      exact ⟨Or.inl rfl, fun x hx => by cases Option.some.inj hx; exact le_refl _,
        by simp [scannedTriangles]⟩
  | cons t ts ih =>
    intro acc hacc
    cases hft : f ray t with
    | none =>
      have hres : castRayAux f ray (t :: ts) acc = castRayAux f ray ts acc := by
        simp [castRayAux, hft]
      have hscan : scannedTriangles f ray (t :: ts) = t :: scannedTriangles f ray ts := by
        simp [scannedTriangles, hft]
      rw [hres, hscan]
      obtain ⟨ihnone, ihsome⟩ := ih acc hacc
      constructor
      · rw [ihnone]
        constructor
        · rintro ⟨h1, h2⟩
          refine ⟨h1, ?_⟩
          intro t' ht'
          rcases List.mem_cons.mp ht' with rfl | ht'
          · exact hft
          · exact h2 t' ht'
        · rintro ⟨h1, h2⟩
          exact ⟨h1, fun t' ht' => h2 t' (List.mem_cons_of_mem _ ht')⟩
      · intro h hh
        obtain ⟨hmem, hle, hmin⟩ := ihsome h hh
        refine ⟨?_, hle, ?_⟩
        · rcases hmem with hacc' | ⟨t', ht', hft'⟩
          · exact Or.inl hacc'
          · exact Or.inr ⟨t', List.mem_cons_of_mem _ ht', hft'⟩
        · intro t' ht' h' hft'
          rcases List.mem_cons.mp ht' with rfl | ht'
          · rw [hft] at hft'; cases hft'
          · exact hmin t' ht' h' hft'
    | some hit =>
      cases acc with
      | none =>
        by_cases hnear : hit.distance < 0.001
        · have hres : castRayAux f ray (t :: ts) none = some hit := by
            simp [castRayAux, hft, hnear]
          have hscan : scannedTriangles f ray (t :: ts) = [t] := by
            simp [scannedTriangles, hft, hnear]
          rw [hres, hscan]
          constructor
          · simp [hft]
          · intro h hh
            cases Option.some.inj hh
            refine ⟨Or.inr ⟨t, by simp, hft⟩, by simp, ?_⟩
            intro t' ht' h' hft'
            rcases List.mem_singleton.mp ht' with rfl
            rw [hft] at hft'
            cases Option.some.inj hft'
            exact le_refl _
        · have hacc' : ∀ x, (some hit : Option RayHit) = some x → 0.001 ≤ x.distance := by
            intro x hx
            cases Option.some.inj hx
            exact not_lt.mp hnear
          have hres : castRayAux f ray (t :: ts) none = castRayAux f ray ts (some hit) := by
            simp [castRayAux, hft, hnear]
          have hscan : scannedTriangles f ray (t :: ts) = t :: scannedTriangles f ray ts := by
            simp [scannedTriangles, hft, hnear]
          rw [hres, hscan]
          obtain ⟨ihnone, ihsome⟩ := ih (some hit) hacc'
          constructor
          · rw [ihnone]; simp [hft]
          · intro h hh
            obtain ⟨hmem, hle, hmin⟩ := ihsome h hh
            refine ⟨?_, ?_, ?_⟩
            · rcases hmem with hh' | ⟨t', ht', hft'⟩
              · cases Option.some.inj hh'
                exact Or.inr ⟨t, by simp, hft⟩
              · exact Or.inr ⟨t', List.mem_cons_of_mem _ ht', hft'⟩
            · intro x hx
              cases hx
            · intro t' ht' h' hft'
              rcases List.mem_cons.mp ht' with rfl | ht'
              · rw [hft] at hft'
                cases Option.some.inj hft'
                exact hle _ rfl
              · exact hmin t' ht' h' hft'
      | some closest =>
        have hclosest : 0.001 ≤ closest.distance := hacc closest rfl
        by_cases hlt : hit.distance < closest.distance
        · by_cases hnear : hit.distance < 0.001
          · have hres : castRayAux f ray (t :: ts) (some closest) = some hit := by
              simp [castRayAux, hft, hlt, hnear]
            have hscan : scannedTriangles f ray (t :: ts) = [t] := by
              simp [scannedTriangles, hft, hnear]
            rw [hres, hscan]
            constructor
            · simp [hft]
            · intro h hh
              cases Option.some.inj hh
              refine ⟨Or.inr ⟨t, by simp, hft⟩, ?_, ?_⟩
              · intro x hx
                cases Option.some.inj hx
                exact hlt.le
              · intro t' ht' h' hft'
                rcases List.mem_singleton.mp ht' with rfl
                rw [hft] at hft'
                cases Option.some.inj hft'
                exact le_refl _
          · have hacc' : ∀ x, (some hit : Option RayHit) = some x → 0.001 ≤ x.distance := by
              intro x hx
              cases Option.some.inj hx
              exact not_lt.mp hnear
            have hres : castRayAux f ray (t :: ts) (some closest) =
                castRayAux f ray ts (some hit) := by
              simp [castRayAux, hft, hlt, hnear]
            have hscan : scannedTriangles f ray (t :: ts) = t :: scannedTriangles f ray ts := by
              simp [scannedTriangles, hft, hnear]
            rw [hres, hscan]
            obtain ⟨ihnone, ihsome⟩ := ih (some hit) hacc'
            constructor
            · rw [ihnone]; simp [hft]
            · intro h hh
              obtain ⟨hmem, hle, hmin⟩ := ihsome h hh
              have hhit : h.distance ≤ hit.distance := hle _ rfl
              refine ⟨?_, ?_, ?_⟩
              · rcases hmem with hh' | ⟨t', ht', hft'⟩
                · cases Option.some.inj hh'
                  exact Or.inr ⟨t, by simp, hft⟩
                · exact Or.inr ⟨t', List.mem_cons_of_mem _ ht', hft'⟩
              · intro x hx
                cases Option.some.inj hx
                linarith
              · intro t' ht' h' hft'
                rcases List.mem_cons.mp ht' with rfl | ht'
                · rw [hft] at hft'
                  cases Option.some.inj hft'
                  exact hhit
                · exact hmin t' ht' h' hft'
        · have hnotnear : ¬ hit.distance < 0.001 := by
            intro hn
            have := not_lt.mp hlt
            linarith
          have hres : castRayAux f ray (t :: ts) (some closest) =
              castRayAux f ray ts (some closest) := by
            simp [castRayAux, hft, hlt]
          have hscan : scannedTriangles f ray (t :: ts) = t :: scannedTriangles f ray ts := by
            simp [scannedTriangles, hft, hnotnear]
          rw [hres, hscan]
          obtain ⟨ihnone, ihsome⟩ := ih (some closest) hacc
          constructor
          · rw [ihnone]; simp
          · intro h hh
            obtain ⟨hmem, hle, hmin⟩ := ihsome h hh
            have hhc : h.distance ≤ closest.distance := hle _ rfl
            refine ⟨?_, ?_, ?_⟩
            · rcases hmem with hh' | ⟨t', ht', hft'⟩
              · exact Or.inl hh'
              · exact Or.inr ⟨t', List.mem_cons_of_mem _ ht', hft'⟩
            · intro x hx
              cases Option.some.inj hx
              exact hhc
            · intro t' ht' h' hft'
              rcases List.mem_cons.mp ht' with rfl | ht'
              · rw [hft] at hft'
                cases Option.some.inj hft'
                have := not_lt.mp hlt
                linarith
              · exact hmin t' ht' h' hft'

/-- The scanned triangles are an initial segment of the scene's
triangle list. -/
theorem scannedTriangles_isInitial (f : Ray ℝ → Triangle ℝ → Option RayHit)
    (ray : Ray ℝ) (ts : List (Triangle ℝ)) :
    ∃ rest, ts = scannedTriangles f ray ts ++ rest := by
  induction ts with
  | nil => exact ⟨[], rfl⟩
  | cons t ts ih =>
    cases hft : f ray t with
    | none =>
      obtain ⟨r, hr⟩ := ih
      have hscan : scannedTriangles f ray (t :: ts) = t :: scannedTriangles f ray ts := by
        simp [scannedTriangles, hft]
      exact ⟨r, by rw [hscan, List.cons_append, ← hr]⟩
    | some hit =>
      by_cases hnear : hit.distance < 0.001
      · exact ⟨ts, by simp [scannedTriangles, hft, hnear]⟩
      · obtain ⟨r, hr⟩ := ih
        have hscan : scannedTriangles f ray (t :: ts) = t :: scannedTriangles f ray ts := by
          simp [scannedTriangles, hft, hnear]
        exact ⟨r, by rw [hscan, List.cons_append, ← hr]⟩

/-- Cramer's rule behind Möller–Trumbore: when the determinant is
nonzero, the accepted intersection point `origin + t·direction` is the
barycentric combination `(1−u−v)·v0 + u·v1 + v·v2` of the triangle's
vertices. -/
theorem mt_cramer (ray : Ray ℝ) (triangle : Triangle ℝ)
    (ha : mtDet ray triangle ≠ 0) :
    add ray.origin (multiply ray.direction (mtT ray triangle)) =
      add (multiply triangle.vertices.1 (1 - mtU ray triangle - mtV ray triangle))
        (add (multiply triangle.vertices.2.1 (mtU ray triangle))
          (multiply triangle.vertices.2.2 (mtV ray triangle))) := by
  obtain ⟨⟨ox, oy, oz⟩, ⟨dx, dy, dz⟩⟩ := ray
  obtain ⟨n, ⟨p0x, p0y, p0z⟩, ⟨p1x, p1y, p1z⟩, ⟨p2x, p2y, p2z⟩⟩ := triangle
  simp only [mtT, mtU, mtV, mtDet, mtEdge1, mtEdge2, mtS, mtH, mtQ, dot, cross,
    subtract, add, multiply] at ha ⊢
  rw [Vector3.mk.injEq]
  refine ⟨?_, ?_, ?_⟩ <;> (field_simp; ring)

/-- A convex combination with nonnegative weights stays within the
min/max of its three points. -/
theorem convex_bound (u v p0 p1 p2 : ℝ) (hu : 0 ≤ u) (hv : 0 ≤ v)
    (huv : u + v ≤ 1) :
    min p0 (min p1 p2) ≤ p0 * (1 - u - v) + (p1 * u + p2 * v) ∧
    p0 * (1 - u - v) + (p1 * u + p2 * v) ≤ max p0 (max p1 p2) := by
  have h0 : min p0 (min p1 p2) ≤ p0 := min_le_left _ _
  have h1 : min p0 (min p1 p2) ≤ p1 := le_trans (min_le_right _ _) (min_le_left _ _)
  have h2 : min p0 (min p1 p2) ≤ p2 := le_trans (min_le_right _ _) (min_le_right _ _)
  have g0 : p0 ≤ max p0 (max p1 p2) := le_max_left _ _
  have g1 : p1 ≤ max p0 (max p1 p2) := le_trans (le_max_left _ _) (le_max_right _ _)
  have g2 : p2 ≤ max p0 (max p1 p2) := le_trans (le_max_right _ _) (le_max_right _ _)
  have hw : 0 ≤ 1 - u - v := by linarith
  constructor
  · nlinarith [mul_nonneg (sub_nonneg.mpr h0) hw, mul_nonneg (sub_nonneg.mpr h1) hu,
      mul_nonneg (sub_nonneg.mpr h2) hv]
  · nlinarith [mul_nonneg (sub_nonneg.mpr g0) hw, mul_nonneg (sub_nonneg.mpr g1) hu,
      mul_nonneg (sub_nonneg.mpr g2) hv]

/-- The point of an accepted Möller–Trumbore hit lies inside the
triangle's axis-aligned bounding box, its distance is positive, and it
sits on the ray. -/
theorem mt_hit_point_in_box {ray : Ray ℝ} {triangle : Triangle ℝ} {hit : RayHit}
    (h : intersectRayTriangleMT ray triangle = some hit) :
    (min triangle.vertices.1.x (min triangle.vertices.2.1.x triangle.vertices.2.2.x) ≤
        hit.point.x ∧
      hit.point.x ≤
        max triangle.vertices.1.x (max triangle.vertices.2.1.x triangle.vertices.2.2.x)) ∧
    (min triangle.vertices.1.y (min triangle.vertices.2.1.y triangle.vertices.2.2.y) ≤
        hit.point.y ∧
      hit.point.y ≤
        max triangle.vertices.1.y (max triangle.vertices.2.1.y triangle.vertices.2.2.y)) ∧
    (min triangle.vertices.1.z (min triangle.vertices.2.1.z triangle.vertices.2.2.z) ≤
        hit.point.z ∧
      hit.point.z ≤
        max triangle.vertices.1.z (max triangle.vertices.2.1.z triangle.vertices.2.2.z)) ∧
    0 < hit.distance ∧
    hit.point.x = ray.origin.x + ray.direction.x * hit.distance ∧
    hit.point.y = ray.origin.y + ray.direction.y * hit.distance ∧
    hit.point.z = ray.origin.z + ray.direction.z * hit.distance := by
  obtain ⟨hdet, hu0, hu1, hv0, huv, ht, rfl⟩ := mt_some_elim h
  have ha : mtDet ray triangle ≠ 0 := by
    rcases hdet with hd | hd <;> intro h0 <;> rw [h0] at hd <;> norm_num at hd
  have hpoint := mt_cramer ray triangle ha
  have hx : (add ray.origin (multiply ray.direction (mtT ray triangle))).x =
      triangle.vertices.1.x * (1 - mtU ray triangle - mtV ray triangle) +
        (triangle.vertices.2.1.x * mtU ray triangle +
          triangle.vertices.2.2.x * mtV ray triangle) := by
    rw [hpoint]; simp [add, multiply]
  have hy : (add ray.origin (multiply ray.direction (mtT ray triangle))).y =
      triangle.vertices.1.y * (1 - mtU ray triangle - mtV ray triangle) +
        (triangle.vertices.2.1.y * mtU ray triangle +
          triangle.vertices.2.2.y * mtV ray triangle) := by
    rw [hpoint]; simp [add, multiply]
  have hz : (add ray.origin (multiply ray.direction (mtT ray triangle))).z =
      triangle.vertices.1.z * (1 - mtU ray triangle - mtV ray triangle) +
        (triangle.vertices.2.1.z * mtU ray triangle +
          triangle.vertices.2.2.z * mtV ray triangle) := by
    rw [hpoint]; simp [add, multiply]
  have huv' : mtU ray triangle + mtV ray triangle ≤ 1 := by linarith
  refine ⟨?_, ?_, ?_, by simp only [mtHit]; linarith, ?_, ?_, ?_⟩
  · rw [show (mtHit ray triangle).point = add ray.origin (multiply ray.direction (mtT ray triangle)) from rfl, hx]
    exact convex_bound _ _ _ _ _ hu0 hv0 huv'
  · rw [show (mtHit ray triangle).point = add ray.origin (multiply ray.direction (mtT ray triangle)) from rfl, hy]
    exact convex_bound _ _ _ _ _ hu0 hv0 huv'
  · rw [show (mtHit ray triangle).point = add ray.origin (multiply ray.direction (mtT ray triangle)) from rfl, hz]
    exact convex_bound _ _ _ _ _ hu0 hv0 huv'
  · simp [mtHit, add, multiply]
  · simp [mtHit, add, multiply]
  · simp [mtHit, add, multiply]

/-- The bounding-box fast rejection agrees with the plain
Möller–Trumbore test on every ray and triangle. -/
theorem intersect_eq_mt (ray : Ray ℝ) (triangle : Triangle ℝ) :
    intersectRayTriangle ray triangle = intersectRayTriangleMT ray triangle := by
  simp only [intersectRayTriangle]
  split_ifs with houter hdir
  · rcases hmt : intersectRayTriangleMT ray triangle with - | hit
    · rfl
    · exfalso
      obtain ⟨⟨hx0, hx1⟩, ⟨hy0, hy1⟩, ⟨hz0, hz1⟩, htpos, hpx, hpy, hpz⟩ :=
        mt_hit_point_in_box hmt
      rcases hdir with ⟨hd, ho⟩ | ⟨hd, ho⟩ | ⟨hd, ho⟩ | ⟨hd, ho⟩ | ⟨hd, ho⟩ | ⟨hd, ho⟩
      · nlinarith [mul_pos hd htpos]
      · nlinarith [mul_pos (neg_pos.mpr hd) htpos]
      · nlinarith [mul_pos hd htpos]
      · nlinarith [mul_pos (neg_pos.mpr hd) htpos]
      · nlinarith [mul_pos hd htpos]
      · nlinarith [mul_pos (neg_pos.mpr hd) htpos]
  · rfl
  · rfl

/-- The scanning loop is pointwise-congruent in its intersection
routine. -/
theorem castRayAux_congr (f g : Ray ℝ → Triangle ℝ → Option RayHit)
    (hfg : ∀ r t, f r t = g r t) (ray : Ray ℝ) (ts : List (Triangle ℝ)) :
    ∀ acc, castRayAux f ray ts acc = castRayAux g ray ts acc := by
  induction ts with
  | nil => intro acc; rfl
  | cons t ts ih =>
    intro acc
    have hft : f ray t = g ray t := hfg ray t
    cases hgt : g ray t with
    | none =>
      rw [hgt] at hft
      simp [castRayAux, hft, hgt, ih acc]
    | some hit =>
      rw [hgt] at hft
      cases acc with
      | none =>
        simp only [castRayAux, hft, hgt]
        split_ifs <;> first | rfl | exact ih _
      | some closest =>
        simp only [castRayAux, hft, hgt]
        split_ifs <;> first | rfl | exact ih _

/-- The neighbour loop returns `false` when every in-bounds neighbour
hits with close depth and similar normal. -/
theorem outlineScan_false {hit : RayHit} {scene : Scene} {w h : ℝ}
    {getRay : ℝ → ℝ → Ray ℝ} {L : List (ℝ × ℝ)}
    (hall : ∀ p ∈ L, ¬(p.1 < 0 ∨ p.1 ≥ w ∨ p.2 < 0 ∨ p.2 ≥ h) →
      ∃ nh, castRay (getRay p.1 p.2) scene = some nh ∧
        |hit.distance - nh.distance| ≤ 0.1 ∧ 0.8 ≤ dot hit.normal nh.normal) :
    outlineScan hit scene w h getRay L = false := by
  induction L with
  | nil => rfl
  | cons p rest ih =>
    by_cases hb : p.1 < 0 ∨ p.1 ≥ w ∨ p.2 < 0 ∨ p.2 ≥ h
    · simp only [outlineScan, if_pos hb]
      exact ih fun q hq => hall q (List.mem_cons_of_mem _ hq)
    · obtain ⟨nh, hnh, hd, hn⟩ := hall p (List.mem_cons_self _ _) hb
      have hd' : ¬(|hit.distance - nh.distance| > 0.1) := not_lt.mpr hd
      have hn' : ¬(dot hit.normal nh.normal < 0.8) := not_lt.mpr hn
      simp only [outlineScan, if_neg hb, hnh, if_neg hd', if_neg hn']
      exact ih fun q hq => hall q (List.mem_cons_of_mem _ hq)

/-- The neighbour loop returns `true` as soon as some in-bounds
neighbour misses (whatever the other neighbours do). -/
theorem outlineScan_true_of_miss {hit : RayHit} {scene : Scene} {w h : ℝ}
    {getRay : ℝ → ℝ → Ray ℝ} {L : List (ℝ × ℝ)}
    (hex : ∃ p ∈ L, ¬(p.1 < 0 ∨ p.1 ≥ w ∨ p.2 < 0 ∨ p.2 ≥ h) ∧
      castRay (getRay p.1 p.2) scene = none) :
    outlineScan hit scene w h getRay L = true := by
  induction L with
  | nil => simp at hex
  | cons p rest ih =>
    obtain ⟨q, hq, hqb, hqm⟩ := hex
    rcases List.mem_cons.mp hq with rfl | hq'
    · simp only [outlineScan, if_neg hqb, hqm]
    · by_cases hb : p.1 < 0 ∨ p.1 ≥ w ∨ p.2 < 0 ∨ p.2 ≥ h
      · simp only [outlineScan, if_pos hb]
        exact ih ⟨q, hq', hqb, hqm⟩
      · simp only [outlineScan, if_neg hb]
        cases hc : castRay (getRay p.1 p.2) scene with
        | none => rfl
        | some nh =>
          dsimp only
          split_ifs
          · rfl
          · rfl
          · exact ih ⟨q, hq', hqb, hqm⟩

section EdgeMapLemmas

variable {α : Type} [DecidableEq α]

theorem occList_nil (key : α) : occList [] key = [] := rfl

theorem occList_cons (k₀ : α) (i : ℕ) (evs : List (α × ℕ)) (key : α) :
    occList ((k₀, i) :: evs) key =
      if k₀ = key then i :: occList evs key else occList evs key := by
  simp only [occList, List.filterMap_cons]
  split_ifs <;> simp

theorem mapFind_mapPush (m : List (α × List ℕ)) (k : α) (i : ℕ) (key : α) :
    mapFind (mapPush m k i) key =
      if key = k then some ((mapFind m k).getD [] ++ [i]) else mapFind m key := by
  induction m with
  | nil =>
    by_cases h : key = k
    · subst h; simp [mapPush, mapFind]
    · simp [mapPush, mapFind, h, Ne.symm h]
  | cons p rest ih =>
    obtain ⟨k₀, l₀⟩ := p
    by_cases h0 : k₀ = k
    · subst h0
      by_cases h1 : key = k₀
      · subst h1; simp [mapPush, mapFind]
      · simp [mapPush, mapFind, h1, Ne.symm h1]
    · by_cases h1 : key = k₀
      · subst h1
        simp [mapPush, mapFind, h0, Ne.symm h0]
      · have h1' : ¬(k₀ = key) := fun hh => h1 hh.symm
        simp only [mapPush, if_neg h0, mapFind, if_neg h1', ih]

theorem processEvents_find (evs : List (α × ℕ)) :
    ∀ (m : List (α × List ℕ)) (key : α),
      mapFind (processEvents m evs) key =
        if mapFind m key = none ∧ occList evs key = [] then none
        else some ((mapFind m key).getD [] ++ occList evs key) := by
  induction evs with
  | nil =>
    intro m key
    simp only [processEvents, occList_nil]
    cases h : mapFind m key <;> simp [h]
  | cons e evs ih =>
    obtain ⟨k₀, i⟩ := e
    intro m key
    rw [show processEvents m ((k₀, i) :: evs) = processEvents (mapPush m k₀ i) evs from rfl,
      ih, mapFind_mapPush, occList_cons]
    by_cases h : k₀ = key
    · subst h
      simp [List.append_assoc]
    · simp [h, Ne.symm h]

theorem buildEdgeMap_find (triangles : List (Triangle K))
    (key : Vector3 K × Vector3 K) :
    mapFind (buildEdgeMap triangles) key =
      if edgeOccurrences triangles key = [] then none
      else some (edgeOccurrences triangles key) := by
  rw [buildEdgeMap, processEvents_find]
  simp only [mapFind, edgeOccurrences]
  split_ifs with h1 h2 h2 <;> simp_all

theorem mapFind_eq_none_iff (m : List (α × List ℕ)) (key : α) :
    mapFind m key = none ↔ key ∉ m.map Prod.fst := by
  induction m with
  | nil => simp [mapFind]
  | cons p rest ih =>
    obtain ⟨k₀, l₀⟩ := p
    simp only [mapFind, List.map_cons, List.mem_cons]
    by_cases h : k₀ = key
    · subst h; simp
    · rw [if_neg h, ih]
      exact ⟨fun hn => not_or.mpr ⟨fun hh => h hh.symm, hn⟩,
        fun hp => (not_or.mp hp).2⟩

theorem mapPush_keys (m : List (α × List ℕ)) (k : α) (i : ℕ) :
    (mapPush m k i).map Prod.fst =
      if mapFind m k = none then m.map Prod.fst ++ [k] else m.map Prod.fst := by
  induction m with
  | nil => simp [mapPush, mapFind]
  | cons p rest ih =>
    obtain ⟨k₀, l₀⟩ := p
    by_cases h : k₀ = k
    · subst h
      simp [mapPush, mapFind]
    · simp only [mapPush, if_neg h, mapFind, List.map_cons, ih]
      split_ifs <;> simp

theorem mapPush_nodup {m : List (α × List ℕ)} (h : (m.map Prod.fst).Nodup)
    (k : α) (i : ℕ) : ((mapPush m k i).map Prod.fst).Nodup := by
  rw [mapPush_keys]
  split_ifs with hf
  · rw [List.nodup_append]
    refine ⟨h, List.nodup_singleton _, ?_⟩
    intro x hx hx'
    rw [List.mem_singleton] at hx'
    rw [hx'] at hx
    exact (mapFind_eq_none_iff m k).mp hf hx
  · exact h

theorem processEvents_nodup (evs : List (α × ℕ)) :
    ∀ {m : List (α × List ℕ)}, (m.map Prod.fst).Nodup →
      ((processEvents m evs).map Prod.fst).Nodup := by
  induction evs with
  | nil => intro m h; exact h
  | cons e evs ih =>
    obtain ⟨k, i⟩ := e
    intro m h
    exact ih (mapPush_nodup h k i)

theorem buildEdgeMap_nodup (triangles : List (Triangle K)) :
    ((buildEdgeMap triangles).map Prod.fst).Nodup :=
  processEvents_nodup _ (by simp)

theorem mapFind_of_mem {m : List (α × List ℕ)} (hnd : (m.map Prod.fst).Nodup)
    {key : α} {l : List ℕ} (hmem : (key, l) ∈ m) : mapFind m key = some l := by
  induction m with
  | nil => cases hmem
  | cons p rest ih =>
    obtain ⟨k₀, l₀⟩ := p
    rcases List.mem_cons.mp hmem with heq | hmem'
    · injection heq with h1 h2
      subst h1
      subst h2
      simp [mapFind]
    · have hk : k₀ ≠ key := by
        rintro rfl
        exact (List.nodup_cons.mp (by simpa using hnd)).1
          (List.mem_map_of_mem Prod.fst hmem')
      simp only [mapFind, if_neg hk]
      exact ih (List.nodup_cons.mp (by simpa using hnd)).2 hmem'

theorem mem_of_mapFind {m : List (α × List ℕ)} {key : α} {l : List ℕ}
    (h : mapFind m key = some l) : (key, l) ∈ m := by
  induction m with
  | nil => cases h
  | cons p rest ih =>
    obtain ⟨k₀, l₀⟩ := p
    rw [mapFind] at h
    split_ifs at h with h0
    · subst h0
      cases Option.some.inj h
      exact List.mem_cons_self _ _
    · exact List.mem_cons_of_mem _ (ih h)

end EdgeMapLemmas

/-- The edge key of the sorted endpoint pair identifies the unordered
pair: swapping the endpoints yields the same key. -/
theorem createEdgeKey_comm (v1 v2 : Vector3 K) :
    createEdgeKey v1 v2 = createEdgeKey v2 v1 := by
  unfold createEdgeKey
  rcases lt_trichotomy v1.x v2.x with hx | hx | hx
  · rw [if_pos (Or.inl hx), if_neg]
    rintro (h | ⟨he, -⟩ | ⟨he, -, -⟩)
    · exact asymm hx h
    · exact ne_of_gt hx he
    · exact ne_of_gt hx he
  · rcases lt_trichotomy v1.y v2.y with hy | hy | hy
    · rw [if_pos (Or.inr (Or.inl ⟨hx, hy⟩)), if_neg]
      rintro (h | ⟨-, h⟩ | ⟨-, he, -⟩)
      · exact absurd h (hx ▸ lt_irrefl _)
      · exact asymm hy h
      · exact ne_of_gt hy he
    · rcases lt_trichotomy v1.z v2.z with hz | hz | hz
      · rw [if_pos (Or.inr (Or.inr ⟨hx, hy, hz⟩)), if_neg]
        rintro (h | ⟨-, h⟩ | ⟨-, -, h⟩)
        · exact absurd h (hx ▸ lt_irrefl _)
        · exact absurd h (hy ▸ lt_irrefl _)
        · exact asymm hz h
      · have hv : v1 = v2 := by
          obtain ⟨x1, y1, z1⟩ := v1
          obtain ⟨x2, y2, z2⟩ := v2
          simp only at hx hy hz
          rw [hx, hy, hz]
        rw [hv]
      · rw [if_neg, if_pos (Or.inr (Or.inr ⟨hx.symm, hy.symm, hz⟩))]
        rintro (h | ⟨-, h⟩ | ⟨-, -, h⟩)
        · exact absurd h (hx ▸ lt_irrefl _)
        · exact absurd h (hy ▸ lt_irrefl _)
        · exact asymm hz h
    · rw [if_neg, if_pos (Or.inr (Or.inl ⟨hx.symm, hy⟩))]
      rintro (h | ⟨-, h⟩ | ⟨-, he, -⟩)
      · exact absurd h (hx ▸ lt_irrefl _)
      · exact asymm hy h
      · exact ne_of_gt hy he
  · rw [if_neg, if_pos (Or.inl hx)]
    rintro (h | ⟨he, -⟩ | ⟨he, -, -⟩)
    · exact asymm hx h
    · exact ne_of_gt hx he
    · exact ne_of_gt hx he

/-- An index stored for an edge key is a valid triangle index, and the
key is one of that triangle's edges. -/
theorem mem_edgeOccurrences {triangles : List (Triangle K)}
    {key : Vector3 K × Vector3 K} {j : ℕ}
    (h : j ∈ edgeOccurrences triangles key) :
    j < triangles.length ∧
      key ∈ triangleEdges (triangles.getD j defaultTriangle) := by
  rw [edgeOccurrences, occList] at h
  obtain ⟨ev, hev, hsome⟩ := List.mem_filterMap.mp h
  split_ifs at hsome with hk
  cases Option.some.inj hsome
  rw [edgeEvents] at hev
  obtain ⟨p, hp, hmem⟩ := List.mem_flatMap.mp hev
  obtain ⟨e, he, heq⟩ := List.mem_map.mp hmem
  obtain ⟨i, t⟩ := p
  subst heq
  subst hk
  have hit : triangles[i]? = some t := List.mk_mem_enum_iff_getElem?.mp hp
  have hlen : i < triangles.length := by
    by_contra hge
    rw [List.getElem?_eq_none (not_lt.mp hge)] at hit
    cases hit
  have hgetD : triangles.getD i defaultTriangle = t := by
    rw [List.getD_eq_getElem?_getD, hit]
    rfl
  exact ⟨hlen, hgetD ▸ he⟩

/-- Setting two entries of a boolean list to `true`: where `true` now
appears. -/
theorem set_set_true_getElem? (acc : List Bool) (a b i : ℕ) :
    ((acc.set a true).set b true)[i]? = some true ↔
      (acc[i]? = some true ∨ (i < acc.length ∧ (i = a ∨ i = b))) := by
  rw [List.getElem?_set, List.getElem?_set]
  simp only [List.length_set]
  by_cases hb : b = i
  · subst hb
    by_cases hl : b < acc.length
    · simp [hl]
    · rw [if_pos rfl, if_neg hl]
      rw [List.getElem?_eq_none (not_lt.mp hl)]
      simp [hl]
  · rw [if_neg hb]
    by_cases ha : a = i
    · subst ha
      by_cases hl : a < acc.length
      · simp [hl]
      · rw [if_pos rfl, if_neg hl]
        rw [List.getElem?_eq_none (not_lt.mp hl)]
        simp [hl]
    · rw [if_neg ha]
      constructor
      · exact Or.inl
      · rintro (hacc | ⟨-, rfl | rfl⟩)
        · exact hacc
        · exact absurd rfl ha
        · exact absurd rfl hb

/-- The marking loop never changes the array's length. -/
theorem markSilhouette_length (triangles : List (Triangle K))
    (viewDirection : Vector3 K) :
    ∀ (entries : List ((Vector3 K × Vector3 K) × List ℕ)) (acc : List Bool),
      (markSilhouette triangles viewDirection entries acc).length = acc.length := by
  intro entries
  induction entries with
  | nil => intro acc; rfl
  | cons en rest ih =>
    intro acc
    obtain ⟨k, idxs⟩ := en
    rcases idxs with - | ⟨a, - | ⟨b, - | ⟨c, tl⟩⟩⟩
    · exact ih acc
    · exact ih acc
    · simp only [markSilhouette]
      split_ifs
      · rw [ih]
        simp
      · exact ih acc
    · exact ih acc

/-- Where the marking loop leaves a `true`: either it was already
there, or some processed entry has exactly two stored indices with
disagreeing facings and the position is one of them (and in range). -/
theorem markSilhouette_getElem? (triangles : List (Triangle K))
    (viewDirection : Vector3 K) :
    ∀ (entries : List ((Vector3 K × Vector3 K) × List ℕ)) (acc : List Bool) (i : ℕ),
      (markSilhouette triangles viewDirection entries acc)[i]? = some true ↔
        (acc[i]? = some true ∨
          (i < acc.length ∧ ∃ en ∈ entries, ∃ a b, en.2 = [a, b] ∧ (i = a ∨ i = b) ∧
            facingBool (triangles.getD a defaultTriangle) viewDirection ≠
              facingBool (triangles.getD b defaultTriangle) viewDirection)) := by
  intro entries
  induction entries with
  | nil =>
    intro acc i
    simp [markSilhouette]
  | cons en rest ih =>
    intro acc i
    obtain ⟨k, idxs⟩ := en
    rcases idxs with - | ⟨a, - | ⟨b, - | ⟨c, tl⟩⟩⟩
    · rw [show markSilhouette triangles viewDirection ((k, []) :: rest) acc =
          markSilhouette triangles viewDirection rest acc from rfl, ih]
      simp
    · rw [show markSilhouette triangles viewDirection ((k, [a]) :: rest) acc =
          markSilhouette triangles viewDirection rest acc from rfl, ih]
      simp
    · by_cases hf : facingBool (triangles.getD a defaultTriangle) viewDirection ≠
          facingBool (triangles.getD b defaultTriangle) viewDirection
      · rw [show markSilhouette triangles viewDirection ((k, [a, b]) :: rest) acc =
            markSilhouette triangles viewDirection rest
              ((acc.set a true).set b true) from by
          simp only [markSilhouette]
          rw [if_pos hf], ih]
        rw [set_set_true_getElem?]
        simp only [List.length_set, List.mem_cons]
        constructor
        · rintro ((hacc | ⟨hil, hab⟩) | ⟨hil, en, hen, a', b', hl, hab, hfa⟩)
          · exact Or.inl hacc
          · exact Or.inr ⟨hil, (k, [a, b]), Or.inl rfl, a, b, rfl, hab, hf⟩
          · exact Or.inr ⟨hil, en, Or.inr hen, a', b', hl, hab, hfa⟩
        · rintro (hacc | ⟨hil, en, rfl | hen, a', b', hl, hab, hfa⟩)
          · exact Or.inl (Or.inl hacc)
          · obtain ⟨rfl, rfl⟩ : a = a' ∧ b = b' := by simpa using hl
            exact Or.inl (Or.inr ⟨hil, hab⟩)
          · exact Or.inr ⟨hil, en, hen, a', b', hl, hab, hfa⟩
      · rw [show markSilhouette triangles viewDirection ((k, [a, b]) :: rest) acc =
            markSilhouette triangles viewDirection rest acc from by
          simp only [markSilhouette]
          rw [if_neg hf], ih]
        constructor
        · rintro (hacc | ⟨hil, en, hen, a', b', hl, hab, hfa⟩)
          · exact Or.inl hacc
          · exact Or.inr ⟨hil, en, List.mem_cons_of_mem _ hen, a', b', hl, hab, hfa⟩
        · rintro (hacc | ⟨hil, en, hen, a', b', hl, hab, hfa⟩)
          · exact Or.inl hacc
          · rcases List.mem_cons.mp hen with rfl | hen'
            · obtain ⟨rfl, rfl⟩ : a = a' ∧ b = b' := by simpa using hl
              exact absurd hfa hf
            · exact Or.inr ⟨hil, en, hen', a', b', hl, hab, hfa⟩
    · rw [show markSilhouette triangles viewDirection ((k, a :: b :: c :: tl) :: rest) acc =
          markSilhouette triangles viewDirection rest acc from rfl, ih]
      simp

/-! # Claims -/

/-- C1 (counterexample): with options width = 40, height = 30 the
produced canvas is not (2·40)×(2·30) — the options' tile size is
ignored in both variants of `generateMultiview`. -/
theorem c1_counterexample :
    multiviewCanvasSize { width := 40, height := 30, outputPath := "out.png" } ≠
      (2 * 40, 2 * 30) ∧
    multiviewCanvasSizeHiRes { width := 40, height := 30, outputPath := "out.png" } ≠
      (2 * 40, 2 * 30) := by
  constructor <;> decide

/-- C1 (amended): the multiview canvas always measures
(2·viewWidth)×(2·viewHeight) for the hardcoded view resolution
400×300 — that is, 800×600 (3200×2400 in the high-resolution
variant) — independently of the width/height supplied in the
options. -/
theorem c1_canvas_size_fixed (options options' : MultiviewOptions) :
    multiviewCanvasSize options = (2 * viewWidth, 2 * viewHeight) ∧
    multiviewCanvasSize options = (800, 600) ∧
    multiviewCanvasSizeHiRes options = (3200, 2400) ∧
    multiviewCanvasSize options = multiviewCanvasSize options' := by
  exact ⟨rfl, rfl, rfl, rfl⟩

/-- C3 (counterexample): decoding a text mesh whose facet-normal line
holds the malformed literal `abc` does not fail: it returns a
one-triangle list whose normal x-component is NaN, and no error naming
the line is ever produced. -/
theorem c3_counterexample :
    parseASCIISTL badSTLInput =
      some ⟨[⟨parseFacetNormalLine "facet normal abc 0 1".toList,
        (parseVertexLine "vertex 0 0 0".toList,
         parseVertexLine "vertex 1 0 0".toList,
         parseVertexLine "vertex 0 1 0".toList)⟩]⟩ ∧
    (parseFacetNormalLine "facet normal abc 0 1".toList).x = JSNum.nan :=
  ⟨rfl, rfl⟩

/-- C3 (amended): a malformed literal does not make the decoder fail:
the record loop consumes the lines of a facet record purely by
position, so any junk vertex line — in particular one with malformed
floating-point literals — is accepted, its fields parsed with
`parseFloat` into (possibly NaN) components; a triangle list is
always returned for such inputs. -/
theorem c3_malformed_literal_accepted (junkLine : List Char) :
    parseRecords ["facet normal 0 0 1".toList, "outer loop".toList,
      "vertex 0 0 0".toList, junkLine, "vertex 0 1 0".toList,
      "endloop".toList, "endfacet".toList] =
    some [⟨parseFacetNormalLine "facet normal 0 0 1".toList,
      (parseVertexLine "vertex 0 0 0".toList, parseVertexLine junkLine,
       parseVertexLine "vertex 0 1 0".toList)⟩] :=
  rfl

/-- C10: the axis-aligned bounding-box fast rejection is sound —
whenever it rejects, the full Möller–Trumbore test would also find no
hit — so the per-triangle intersection with the fast path equals the
plain Möller–Trumbore test, and `castRay` computes the same result as
the scan without the fast path, for every ray and scene. -/
theorem c10_bbox_fast_path_sound :
    (∀ (ray : Ray ℝ) (triangle : Triangle ℝ),
      intersectRayTriangle ray triangle = intersectRayTriangleMT ray triangle) ∧
    ∀ (ray : Ray ℝ) (scene : Scene), castRay ray scene = castRayNoBBox ray scene :=
  ⟨intersect_eq_mt, fun ray scene =>
    castRayAux_congr intersectRayTriangle intersectRayTriangleMT intersect_eq_mt
      ray scene.triangles none⟩

/-- C2: `castRay` scans the scene's triangles in order, truncated at
the first triangle whose hit is closer than 0.001 (the early exit);
over that scanned prefix — an initial segment of the scene — it
returns `none` exactly when no scanned triangle is hit, and otherwise
a hit of a scanned triangle whose distance realises the minimum over
every scanned triangle's hit (all hits being positive). -/
theorem c2_castRay_min_over_scan (ray : Ray ℝ) (scene : Scene) :
    (castRay ray scene = none ↔
      ∀ t ∈ scannedTriangles intersectRayTriangle ray scene.triangles,
        intersectRayTriangle ray t = none) ∧
    (∀ h, castRay ray scene = some h →
      (∃ t ∈ scannedTriangles intersectRayTriangle ray scene.triangles,
        intersectRayTriangle ray t = some h) ∧
      0.00001 < h.distance ∧
      ∀ t ∈ scannedTriangles intersectRayTriangle ray scene.triangles,
        ∀ h', intersectRayTriangle ray t = some h' → h.distance ≤ h'.distance) ∧
    ∃ rest, scene.triangles =
      scannedTriangles intersectRayTriangle ray scene.triangles ++ rest := by
  obtain ⟨hnone, hsome⟩ :=
    castRayAux_spec intersectRayTriangle ray scene.triangles none (by simp)
  refine ⟨?_, ?_, scannedTriangles_isInitial _ _ _⟩
  · rw [castRay, hnone]
    simp
  · intro h hh
    obtain ⟨hmem, -, hmin⟩ := hsome h hh
    rcases hmem with habs | ⟨t, ht, hft⟩
    · cases habs
    · obtain ⟨-, -, -, -, -, hdist, rfl⟩ := mt_some_elim (intersect_some_elim hft)
      exact ⟨⟨t, ht, hft⟩, hdist, hmin⟩

/-- C4: for a centre pixel whose ray hits, `detectOutline` returns
`isOutline = false` when every in-bounds 4-connected neighbour ray
also hits with absolute depth difference below 0.1 and normal dot
product above 0.8, and returns `isOutline = true` whenever at least
one in-bounds 4-connected neighbour ray misses the scene. -/
theorem c4_detectOutline_classification (ray : Ray ℝ) (scene : Scene)
    (pixelX pixelY imageWidth imageHeight : ℝ) (getRay : ℝ → ℝ → Ray ℝ)
    (center : RayHit) (hc : castRay ray scene = some center) :
    ((∀ p ∈ neighborOffsets pixelX pixelY,
        ¬(p.1 < 0 ∨ p.1 ≥ imageWidth ∨ p.2 < 0 ∨ p.2 ≥ imageHeight) →
        ∃ nh, castRay (getRay p.1 p.2) scene = some nh ∧
          |center.distance - nh.distance| < 0.1 ∧
          0.8 < dot center.normal nh.normal) →
      (detectOutline ray scene pixelX pixelY imageWidth imageHeight getRay).isOutline
        = false) ∧
    ((∃ p ∈ neighborOffsets pixelX pixelY,
        ¬(p.1 < 0 ∨ p.1 ≥ imageWidth ∨ p.2 < 0 ∨ p.2 ≥ imageHeight) ∧
        castRay (getRay p.1 p.2) scene = none) →
      (detectOutline ray scene pixelX pixelY imageWidth imageHeight getRay).isOutline
        = true) := by
  constructor
  · intro hall
    simp only [detectOutline, hc]
    exact outlineScan_false fun p hp hb => by
      obtain ⟨nh, hnh, hd, hn⟩ := hall p hp hb
      exact ⟨nh, hnh, hd.le, hn.le⟩
  · intro hex
    simp only [detectOutline, hc]
    exact outlineScan_true_of_miss hex

/-- C4 (witness): a centre ray straight down onto `bigTriangle` with
all four neighbours sampled by the same vertical-ray mapping. -/
theorem c4_detectOutline_classification_witness :
    castRay (downRay 5 5) (createScene [bigTriangle]) = some centerHit ∧
    (((∀ p ∈ neighborOffsets 5 5,
        ¬(p.1 < 0 ∨ p.1 ≥ (10 : ℝ) ∨ p.2 < 0 ∨ p.2 ≥ (10 : ℝ)) →
        ∃ nh, castRay (downRay p.1 p.2) (createScene [bigTriangle]) = some nh ∧
          |centerHit.distance - nh.distance| < 0.1 ∧
          0.8 < dot centerHit.normal nh.normal) →
      (detectOutline (downRay 5 5) (createScene [bigTriangle]) 5 5 10 10
        (fun x y => downRay x y)).isOutline = false) ∧
    ((∃ p ∈ neighborOffsets 5 5,
        ¬(p.1 < 0 ∨ p.1 ≥ (10 : ℝ) ∨ p.2 < 0 ∨ p.2 ≥ (10 : ℝ)) ∧
        castRay (downRay p.1 p.2) (createScene [bigTriangle]) = none) →
      (detectOutline (downRay 5 5) (createScene [bigTriangle]) 5 5 10 10
        (fun x y => downRay x y)).isOutline = true)) := by
  have hc : castRay (downRay 5 5) (createScene [bigTriangle]) = some centerHit := by
    norm_num [castRay, castRayAux, intersectRayTriangle, intersectRayTriangleMT,
      createScene, bigTriangle, downRay, centerHit, dot, cross, subtract, add, multiply,
      normalize, vecLength, Real.sqrt_one, RayHit.mk.injEq, Vector3.mk.injEq,
      Material.mk.injEq]
  exact ⟨hc, c4_detectOutline_classification (downRay 5 5) (createScene [bigTriangle])
    5 5 10 10 (fun x y => downRay x y) centerHit hc⟩

/-- C5: `detectSilhouette` returns one boolean per triangle, true
exactly when the triangle has an edge — keyed by the unordered pair of
its endpoint coordinate triples, with no snapping — whose accumulated
index list holds exactly two triangles whose facing tests
`dot(normal, viewDirection) < 0` disagree. -/
theorem c5_detectSilhouette_iff (triangles : List (Triangle K))
    (viewDirection : Vector3 K) :
    (∀ u v : Vector3 K, createEdgeKey u v = createEdgeKey v u) ∧
    (detectSilhouette triangles viewDirection).length = triangles.length ∧
    ∀ i : ℕ,
      ((detectSilhouette triangles viewDirection)[i]? = some true ↔
        (i < triangles.length ∧
          ∃ key a b,
            key ∈ triangleEdges (triangles.getD i defaultTriangle) ∧
            edgeOccurrences triangles key = [a, b] ∧ (i = a ∨ i = b) ∧
            a < triangles.length ∧ b < triangles.length ∧
            facingBool (triangles.getD a defaultTriangle) viewDirection ≠
              facingBool (triangles.getD b defaultTriangle) viewDirection)) := by
  refine ⟨fun u v => createEdgeKey_comm u v, ?_, ?_⟩
  · rw [detectSilhouette, markSilhouette_length]
    simp
  · intro i
    rw [detectSilhouette, markSilhouette_getElem?]
    have hrep : (List.replicate triangles.length false)[i]? ≠ some true := by
      rcases lt_or_ge i triangles.length with hi | hi
      · rw [List.getElem?_replicate_of_lt hi]
        simp
      · rw [List.getElem?_eq_none (by simpa using hi)]
        simp
    constructor
    · rintro (habs | ⟨hil, en, hen, a, b, hl, hab, hf⟩)
      · exact absurd habs hrep
      · obtain ⟨k, l⟩ := en
        have hl' : l = [a, b] := hl
        subst hl'
        have hfind := mapFind_of_mem (buildEdgeMap_nodup triangles) hen
        rw [buildEdgeMap_find] at hfind
        split_ifs at hfind with hocc
        have hocc_eq : edgeOccurrences triangles k = [a, b] :=
          Option.some.inj hfind
        have hmema := @mem_edgeOccurrences K _ triangles k a
          (by rw [hocc_eq]; simp)
        have hmemb := @mem_edgeOccurrences K _ triangles k b
          (by rw [hocc_eq]; simp)
        have hmemi : i ∈ edgeOccurrences triangles k := by
          rw [hocc_eq]
          rcases hab with rfl | rfl <;> simp
        exact ⟨by simpa using hil, k, a, b, (mem_edgeOccurrences hmemi).2,
          hocc_eq, hab, hmema.1, hmemb.1, hf⟩
    · rintro ⟨hi, k, a, b, hke, hocc, hab, ha, hb, hf⟩
      refine Or.inr ⟨by simpa using hi, (k, [a, b]), ?_, a, b, rfl, hab, hf⟩
      apply mem_of_mapFind
      rw [buildEdgeMap_find, if_neg (by rw [hocc]; simp), hocc]

/-- C6: for a fixed hit distance > 0, the blend weight toward
`fogColor`, 1 − e^(−fogDensity·distance), is monotone in the fog
density (strictly when the density strictly increases), and
`calculateLighting` blends exactly with that weight before clamping. -/
theorem c6_fog_monotone (fogDensity₁ fogDensity₂ distance : ℝ)
    (hdist : 0 < distance) (hle : fogDensity₁ ≤ fogDensity₂) :
    fogWeight fogDensity₁ distance ≤ fogWeight fogDensity₂ distance ∧
    (fogDensity₁ < fogDensity₂ →
      fogWeight fogDensity₁ distance < fogWeight fogDensity₂ distance) ∧
    ∀ (hit : RayHit) (scene : Scene) (rayDirection : Vector3 ℝ),
      calculateLighting hit scene rayDirection =
        clampColor (add
          (multiply (preFogColor hit scene)
            (1 - fogWeight scene.fogDensity hit.distance))
          (multiply scene.fogColor (fogWeight scene.fogDensity hit.distance))) := by
  refine ⟨?_, ?_, ?_⟩
  · have h : Real.exp (-fogDensity₂ * distance) ≤ Real.exp (-fogDensity₁ * distance) :=
      Real.exp_le_exp.mpr (by nlinarith)
    simp only [fogWeight]
    linarith
  · intro hlt
    have h : Real.exp (-fogDensity₂ * distance) < Real.exp (-fogDensity₁ * distance) :=
      Real.exp_lt_exp.mpr (by nlinarith)
    simp only [fogWeight]
    linarith
  · intro hit scene rayDirection
    simp [calculateLighting, fogWeight, sub_sub_cancel]

/-- C6 (witness): the fog monotonicity at density 0 vs 1 and
distance 1. -/
theorem c6_fog_monotone_witness :
    (0 : ℝ) < 1 ∧ (0 : ℝ) ≤ 1 ∧
    (fogWeight 0 1 ≤ fogWeight 1 1 ∧
     ((0 : ℝ) < 1 → fogWeight 0 1 < fogWeight 1 1) ∧
     ∀ (hit : RayHit) (scene : Scene) (rayDirection : Vector3 ℝ),
       calculateLighting hit scene rayDirection =
         clampColor (add
           (multiply (preFogColor hit scene)
             (1 - fogWeight scene.fogDensity hit.distance))
           (multiply scene.fogColor (fogWeight scene.fogDensity hit.distance)))) :=
  ⟨one_pos, zero_le_one, c6_fog_monotone 0 1 1 one_pos zero_le_one⟩

/-- C7: a ray whose Möller–Trumbore determinant against a triangle has
magnitude below 0.00001 is rejected as parallel, and `castRay` on the
single-triangle scene of that triangle returns null. -/
theorem c7_parallel_ray_misses (ray : Ray ℝ) (triangle : Triangle ℝ)
    (h₁ : -0.00001 < mtDet ray triangle) (h₂ : mtDet ray triangle < 0.00001) :
    intersectRayTriangleMT ray triangle = none ∧
    castRay ray (createScene [triangle]) = none := by
  have hmt : intersectRayTriangleMT ray triangle = none := mt_none_of_parallel h₁ h₂
  have hint : intersectRayTriangle ray triangle = none := by
    simp only [intersectRayTriangle]
    split_ifs <;> simp [hmt]
  refine ⟨hmt, ?_⟩
  simp [castRay, createScene, castRayAux, hint]

/-- C7 (witness): a concrete parallel ray (travelling in the plane
z = 5 above `flatTriangle`) has determinant 0 and misses. -/
theorem c7_parallel_ray_misses_witness :
    -0.00001 < mtDet parallelRay flatTriangle ∧
    mtDet parallelRay flatTriangle < 0.00001 ∧
    (intersectRayTriangleMT parallelRay flatTriangle = none ∧
     castRay parallelRay (createScene [flatTriangle]) = none) := by
  have h₁ : -0.00001 < mtDet parallelRay flatTriangle := by
    norm_num [mtDet, dot, cross, subtract, parallelRay, flatTriangle]
  have h₂ : mtDet parallelRay flatTriangle < 0.00001 := by
    norm_num [mtDet, dot, cross, subtract, parallelRay, flatTriangle]
  exact ⟨h₁, h₂, c7_parallel_ray_misses parallelRay flatTriangle h₁ h₂⟩

/-- C8: when the camera's up vector is collinear with its forward
vector (target − position), the cross product defining the right basis
vector is the zero vector, `normalize` maps it to the zero vector
rather than failing, and `getRayForPixel` still returns a ray whose
direction is the forward vector. -/
theorem c8_collinear_up_degenerates (camera : OrthographicCamera) (c : ℝ)
    (hup : camera.up = multiply (subtract camera.target camera.position) c) :
    cross (cameraForward camera) camera.up = ⟨0, 0, 0⟩ ∧
    cameraRight camera = ⟨0, 0, 0⟩ ∧
    ∀ pixelX pixelY imageWidth imageHeight : ℝ,
      (getRayForPixel camera pixelX pixelY imageWidth imageHeight).direction =
        cameraForward camera := by
  have hcross : cross (cameraForward camera) camera.up = ⟨0, 0, 0⟩ := by
    rw [hup]
    simp only [cameraForward, normalize]
    split_ifs
    · simp [cross, multiply]
    · cases camera.target
      cases camera.position
      simp only [cross, multiply, subtract, Vector3.mk.injEq]
      refine ⟨by ring, by ring, by ring⟩
  refine ⟨hcross, ?_, fun _ _ _ _ => rfl⟩
  rw [cameraRight, hcross, normalize, if_pos]
  simp [vecLength]

/-- C8 (witness): the degenerate camera looking along +z with up also
along +z. -/
theorem c8_collinear_up_degenerates_witness :
    degenerateCamera.up =
      multiply (subtract degenerateCamera.target degenerateCamera.position) 2 ∧
    (cross (cameraForward degenerateCamera) degenerateCamera.up = ⟨0, 0, 0⟩ ∧
     cameraRight degenerateCamera = ⟨0, 0, 0⟩ ∧
     ∀ pixelX pixelY imageWidth imageHeight : ℝ,
       (getRayForPixel degenerateCamera pixelX pixelY imageWidth imageHeight).direction =
         cameraForward degenerateCamera) := by
  have hup : degenerateCamera.up =
      multiply (subtract degenerateCamera.target degenerateCamera.position) 2 := by
    norm_num [degenerateCamera, multiply, subtract]
  exact ⟨hup, c8_collinear_up_degenerates degenerateCamera 2 hup⟩

/-- C9: the lighting calculation never reads the material's ambient
coefficient — two hits identical except for `material.ambient` shade
identically — while every hit produced by the intersection routine
carries the fixed ambient coefficient 0.3. -/
theorem c9_ambient_coefficient_unused :
    (∀ (hit : RayHit) (scene : Scene) (rayDirection : Vector3 ℝ) (a₁ a₂ : ℝ),
      calculateLighting { hit with material := { hit.material with ambient := a₁ } }
          scene rayDirection =
        calculateLighting { hit with material := { hit.material with ambient := a₂ } }
          scene rayDirection) ∧
    (∀ (ray : Ray ℝ) (triangle : Triangle ℝ) (hit : RayHit),
      intersectRayTriangle ray triangle = some hit → hit.material.ambient = 0.3) := by
  constructor
  · intro hit scene rayDirection a₁ a₂
    rfl
  · intro ray triangle hit h
    obtain ⟨-, -, -, -, -, -, rfl⟩ := mt_some_elim (intersect_some_elim h)
    rfl

end Scadr
